import Mathlib

/-!
# Transaction records of `backend/concurrency/transaction.cpp`

A shallow embedding of `peloton::concurrency::Transaction` (the per-transaction
insert/delete bookkeeping and the reference count) together with the types of
`backend/common/types.h` it uses.

* `oid_t` is `uint16_t` in the source.  The functions embedded here perform no
  arithmetic on oids (they are only stored and compared), so they are carried
  as natural numbers.
* `storage::TileGroup*` is an address; `0` is the null pointer.
* `std::map<storage::TileGroup*, std::vector<oid_t>>` is a key-ordered list of
  `(pointer, vector)` entries with `find` and `operator[]`.
* The process-wide `catalog::Manager` singleton is passed explicitly.
-/

namespace peloton

/-- The source's `typedef uint16_t oid_t`. -/
abbrev oid_t := Nat

/-- The source's `typedef uint64_t txn_id_t`. -/
abbrev txn_id_t := Nat

/-- The source's `typedef uint64_t cid_t`. -/
abbrev cid_t := Nat

/-- The value `std::numeric_limits<T>::max()` of an unsigned type of `bits` bits. -/
def numeric_limits_max (bits : Nat) : Nat := 2 ^ bits - 1

/-- The macro `VALUE_COMPARE_LESSTHAN`. -/
def VALUE_COMPARE_LESSTHAN : Int := -1

/-- The macro `VALUE_COMPARE_EQUAL`. -/
def VALUE_COMPARE_EQUAL : Int := 0

/-- The macro `VALUE_COMPARE_GREATERTHAN`. -/
def VALUE_COMPARE_GREATERTHAN : Int := 1

/-- The macro `DEFAULT_DB_ID`. -/
def DEFAULT_DB_ID : Nat := 12345

/-- The macro `DEFAULT_TUPLES_PER_TILEGROUP`. -/
def DEFAULT_TUPLES_PER_TILEGROUP : Nat := 1000

/-- The constant `START_OID = 0`. -/
def START_OID : oid_t := 0

/-- The constant `INVALID_OID = std::numeric_limits<oid_t>::max()`. -/
def INVALID_OID : oid_t := numeric_limits_max 16

/-- The constant `MAX_OID = std::numeric_limits<oid_t>::max() - 1`, converted to
the 16-bit `oid_t`. -/
def MAX_OID : oid_t := (numeric_limits_max 16 - 1) % 2 ^ 16

/-- The constant `INVALID_TXN_ID = 0`. -/
def INVALID_TXN_ID : txn_id_t := 0

/-- The constant `START_TXN_ID = 1`. -/
def START_TXN_ID : txn_id_t := 1

/-- The constant `MAX_TXN_ID = std::numeric_limits<txn_id_t>::max()`. -/
def MAX_TXN_ID : txn_id_t := numeric_limits_max 64

/-- The constant `INVALID_CID = 0`. -/
def INVALID_CID : cid_t := 0

/-- The constant `START_CID = 1`. -/
def START_CID : cid_t := 1

/-- The constant `MAX_CID = std::numeric_limits<cid_t>::max()`. -/
def MAX_CID : cid_t := numeric_limits_max 64

/-- The source's `enum Result`, all six enumerators. -/
inductive Result where
  | RESULT_INVALID
  | RESULT_SUCCESS
  | RESULT_FAILURE
  | RESULT_ABORTED
  | RESULT_NOOP
  | RESULT_UNKNOWN
deriving DecidableEq, Repr

/-- The integer each enumerator of `enum Result` is declared with. -/
def Result.code : Result → Nat
  | Result.RESULT_INVALID => 0
  | Result.RESULT_SUCCESS => 1
  | Result.RESULT_FAILURE => 2
  | Result.RESULT_ABORTED => 3
  | Result.RESULT_NOOP => 4
  | Result.RESULT_UNKNOWN => 5

/-- The enumerators of `enum Result`, in declaration order. -/
def Result.enumerators : List Result :=
  [Result.RESULT_INVALID, Result.RESULT_SUCCESS, Result.RESULT_FAILURE,
    Result.RESULT_ABORTED, Result.RESULT_NOOP, Result.RESULT_UNKNOWN]

/-- The five outcomes Success, Failure, Aborted, NoOp and Unknown. -/
def Result.fiveOutcomes : List Result :=
  [Result.RESULT_SUCCESS, Result.RESULT_FAILURE, Result.RESULT_ABORTED,
    Result.RESULT_NOOP, Result.RESULT_UNKNOWN]

/-- The source's `struct ItemPointer`: a block and a 0-based offset within it. -/
structure ItemPointer where
  block : oid_t
  offset : oid_t
deriving DecidableEq, Repr

/-- The constructor `ItemPointer() : block(INVALID_OID), offset(INVALID_OID) {}`. -/
def ItemPointer.construct : ItemPointer :=
  { block := INVALID_OID, offset := INVALID_OID }

/-- The constructor
`ItemPointer(oid_t block, oid_t offset) : block(block), offset(offset) {}`. -/
def ItemPointer.construct2 (block offset : oid_t) : ItemPointer :=
  { block := block, offset := offset }

namespace storage

/-- A `storage::TileGroup*`: the address of a tile group, `0` being `nullptr`. -/
abbrev TileGroupPtr := Nat

/-- The null pointer, the value-initialised `void*`. -/
def nullTileGroup : TileGroupPtr := 0

end storage

namespace catalog

/-- Modelled from the spec: the class `catalog::Manager` and the declaration of
its member `locator` are not among the sources (only the use
`manager.locator[location.block]` is).  The spec describes the locator as the
process-wide mapping from block oid to tile-group handle, "raw pointers stored
in a global locator keyed by oid"; it is represented by its entries, in
insertion order. -/
structure Manager where
  locator : List (oid_t × storage.TileGroupPtr)
deriving DecidableEq, Repr

/-- The entry registered for `block`, if there is one. -/
def lookup : List (oid_t × storage.TileGroupPtr) → oid_t → Option storage.TileGroupPtr
  | [], _ => none
  | (b, p) :: rest, block => if b = block then some p else lookup rest block

/-- A block is registered when the locator has an entry for it. -/
def Manager.registered (manager : Manager) (block : oid_t) : Bool :=
  (lookup manager.locator block).isSome

/-- The expression `manager.locator[block]`: `operator[]` of a mapping.  It
yields the stored pointer; for a key that is not present it performs an
insertion of a value-initialised (null) pointer and yields that.  It has no
failure outcome.  The second component is the manager after the access. -/
def Manager.locatorIndex (manager : Manager) (block : oid_t) :
    storage.TileGroupPtr × Manager :=
  match lookup manager.locator block with
  | some p => (p, manager)
  | none =>
    (storage.nullTileGroup,
      { manager with locator := manager.locator ++ [(block, storage.nullTileGroup)] })

end catalog

namespace concurrency

/-- The type `std::map<storage::TileGroup*, std::vector<oid_t>>`: entries kept
in ascending key order. -/
abbrev TupleMap := List (storage.TileGroupPtr × List oid_t)

namespace TupleMap

/-- The call `std::map::find`: the vector stored under `key`; `none` is `end()`. -/
def find : TupleMap → storage.TileGroupPtr → Option (List oid_t)
  | [], _ => none
  | (k, v) :: rest, key => if k = key then some v else find rest key

/-- Insertion of a new entry at its place in key order. -/
def orderedInsert : TupleMap → storage.TileGroupPtr → List oid_t → TupleMap
  | [], key, v => [(key, v)]
  | (k, w) :: rest, key, v =>
    if key < k then (key, v) :: (k, w) :: rest
    else (k, w) :: orderedInsert rest key v

/-- The map after evaluating `m[key]`: `std::map::operator[]` performs an
insertion of an empty vector if `key` does not already exist, and otherwise
leaves the map as it is. -/
def index (m : TupleMap) (key : storage.TileGroupPtr) : TupleMap :=
  match find m key with
  | some _ => m
  | none => orderedInsert m key []

/-- The call `push_back(o)` on the vector stored under `key`. -/
def pushBackAt : TupleMap → storage.TileGroupPtr → oid_t → TupleMap
  | [], _, _ => []
  | (k, v) :: rest, key, o =>
    if k = key then (k, v ++ [o]) :: rest
    else (k, v) :: pushBackAt rest key o

/-- The keys of the map, in entry order. -/
def keys (m : TupleMap) : List storage.TileGroupPtr := m.map Prod.fst

/-- The ordering invariant of `std::map`: keys strictly ascending, so no key
occurs twice. -/
def Ordered (m : TupleMap) : Prop := (keys m).Pairwise (fun a b => a < b)

end TupleMap

/-- The data members of `class Transaction` that `transaction.cpp` uses.
`next` is the transaction the `next` pointer refers to, if any. -/
structure Transaction where
  txn_id : txn_id_t
  cid : cid_t
  last_cid : cid_t
  inserted_tuples : TupleMap
  deleted_tuples : TupleMap
  next : Option txn_id_t
  ref_count : Nat
deriving DecidableEq, Repr

/-- The method `Transaction::RecordInsert`:
`tile_group = manager.locator[location.block];`
`inserted_tuples[tile_group].push_back(location.offset);`
The result is the manager and the record after the call. -/
def RecordInsert (manager : catalog.Manager) (t : Transaction) (location : ItemPointer) :
    catalog.Manager × Transaction :=
  let r := manager.locatorIndex location.block
  let tile_group := r.1
  (r.2, { t with
    inserted_tuples :=
      TupleMap.pushBackAt (TupleMap.index t.inserted_tuples tile_group) tile_group
        location.offset })

/-- The method `Transaction::RecordDelete`:
`tile_group = manager.locator[location.block];`
`deleted_tuples[tile_group].push_back(location.offset);` -/
def RecordDelete (manager : catalog.Manager) (t : Transaction) (location : ItemPointer) :
    catalog.Manager × Transaction :=
  let r := manager.locatorIndex location.block
  let tile_group := r.1
  (r.2, { t with
    deleted_tuples :=
      TupleMap.pushBackAt (TupleMap.index t.deleted_tuples tile_group) tile_group
        location.offset })

/-- The method `Transaction::HasInsertedTuples`: `find` the tile group, and
answer `true` when the iterator is not `end()` and its vector is not empty. -/
def HasInsertedTuples (t : Transaction) (tile_group : storage.TileGroupPtr) : Bool :=
  match TupleMap.find t.inserted_tuples tile_group with
  | some v => if !v.isEmpty then true else false
  | none => false

/-- The method `Transaction::HasDeletedTuples`. -/
def HasDeletedTuples (t : Transaction) (tile_group : storage.TileGroupPtr) : Bool :=
  match TupleMap.find t.deleted_tuples tile_group with
  | some v => if !v.isEmpty then true else false
  | none => false

/-- The method `Transaction::GetInsertedTuples`: a view of the whole map. -/
def GetInsertedTuples (t : Transaction) : TupleMap := t.inserted_tuples

/-- The method `Transaction::GetDeletedTuples`: a view of the whole map. -/
def GetDeletedTuples (t : Transaction) : TupleMap := t.deleted_tuples

/-- A run of `RecordInsert` calls, one per item pointer, in order. -/
def recordInserts (manager : catalog.Manager) (t : Transaction) :
    List ItemPointer → catalog.Manager × Transaction
  | [] => (manager, t)
  | p :: ps => recordInserts (RecordInsert manager t p).1 (RecordInsert manager t p).2 ps

/-- The offsets of the item pointers of `S` whose block the locator of
`manager` maps to `H`, in the order of `S`. -/
def offsetsFor (manager : catalog.Manager) (S : List ItemPointer)
    (H : storage.TileGroupPtr) : List oid_t :=
  (S.filter (fun p => decide ((manager.locatorIndex p.block).1 = H))).map ItemPointer.offset

/-- One recording call on a transaction record. -/
inductive RecordOp where
  | insert (location : ItemPointer)
  | delete (location : ItemPointer)
deriving DecidableEq, Repr

/-- A run of `RecordInsert` and `RecordDelete` calls, in order. -/
def applyOps (manager : catalog.Manager) (t : Transaction) :
    List RecordOp → catalog.Manager × Transaction
  | [] => (manager, t)
  | RecordOp.insert p :: ops =>
    applyOps (RecordInsert manager t p).1 (RecordInsert manager t p).2 ops
  | RecordOp.delete p :: ops =>
    applyOps (RecordDelete manager t p).1 (RecordDelete manager t p).2 ops

/-- The item pointers passed to `RecordInsert` in a run, in order. -/
def insertsOf : List RecordOp → List ItemPointer
  | [] => []
  | RecordOp.insert p :: ops => p :: insertsOf ops
  | RecordOp.delete _ :: ops => insertsOf ops

/-- The item pointers passed to `RecordDelete` in a run, in order. -/
def deletesOf : List RecordOp → List ItemPointer
  | [] => []
  | RecordOp.insert _ :: ops => deletesOf ops
  | RecordOp.delete p :: ops => p :: deletesOf ops

/-- What is stored under a handle after the offsets `offs` have been recorded
for it on top of `old`: nothing new when `offs` is empty. -/
def appendRecorded (old : Option (List oid_t)) (offs : List oid_t) : Option (List oid_t) :=
  if offs = [] then old else some (old.getD [] ++ offs)

/-- The outcome of one call of `DecrementRefCount`. -/
structure DecrementOutcome where
  /-- The check `assert(ref_count > 0)` failed and stopped the call. -/
  assert_failed : Bool
  /-- The data members of the record when the call ended. -/
  record : Transaction
  /-- The statement `delete this` was executed. -/
  deleted : Bool
deriving DecidableEq, Repr

/-- The method `Transaction::DecrementRefCount`, with the assertion active:
`assert(ref_count > 0); if (ref_count.fetch_sub(1) == 1) delete this;`
The call `fetch_sub(1)` stores the count minus one and returns the count it
replaced; it is reached only with a positive count, where the subtraction is
exact at every integer width. -/
def DecrementRefCount (t : Transaction) : DecrementOutcome :=
  if t.ref_count > 0 then
    let previous := t.ref_count
    let t1 := { t with ref_count := previous - 1 }
    if previous = 1 then
      { assert_failed := false, record := t1, deleted := true }
    else
      { assert_failed := false, record := t1, deleted := false }
  else
    { assert_failed := true, record := t, deleted := false }

/-- The life of one transaction record on the heap. -/
inductive RecordState where
  /-- The record is allocated, with these data members. -/
  | live (t : Transaction)
  /-- The statement `delete this` has released the record. -/
  | destroyed
  /-- A failed assertion has stopped the process. -/
  | aborted (t : Transaction)
  /-- A method was called on a released record. -/
  | useAfterDelete
deriving DecidableEq, Repr

/-- One call of `DecrementRefCount` on the record. -/
def decrementStep : RecordState → RecordState
  | RecordState.live t =>
    if (DecrementRefCount t).assert_failed then RecordState.aborted t
    else if (DecrementRefCount t).deleted then RecordState.destroyed
    else RecordState.live (DecrementRefCount t).record
  | RecordState.destroyed => RecordState.useAfterDelete
  | RecordState.aborted t => RecordState.aborted t
  | RecordState.useAfterDelete => RecordState.useAfterDelete

/-- A run of `k` calls of `DecrementRefCount` on the record. -/
def decrementRun : Nat → RecordState → RecordState
  | 0, s => s
  | k + 1, s => decrementRun k (decrementStep s)

/-- A locator in which block 7 is registered, for the tile group at address 100. -/
def sampleManager : catalog.Manager := { locator := [(7, 100)] }

/-- A record with both maps empty and a reference count of `n`. -/
def sampleRecord (n : Nat) : Transaction :=
  { txn_id := 1, cid := 1, last_cid := 0, inserted_tuples := [], deleted_tuples := [],
    next := none, ref_count := n }

/-- The total number of offsets recorded in a map: the sum of the sizes of
its vectors. -/
def totalOffsets : TupleMap → Nat
  | [] => 0
  | (_, v) :: rest => v.length + totalOffsets rest

/-- A call of a method that returns a value: the value returned and the data
members of the record after the call. -/
structure MethodCall (α : Type) where
  value : α
  after : Transaction

/-- A call of `HasInsertedTuples`, a `const` method: its statements are a
`find` on `inserted_tuples`, the two tests and `return`; none writes a member. -/
def HasInsertedTuples_call (t : Transaction) (tile_group : storage.TileGroupPtr) :
    MethodCall Bool :=
  { value := HasInsertedTuples t tile_group, after := t }

/-- A call of `HasDeletedTuples`, a `const` method: its statements are a
`find` on `deleted_tuples`, the two tests and `return`; none writes a member. -/
def HasDeletedTuples_call (t : Transaction) (tile_group : storage.TileGroupPtr) :
    MethodCall Bool :=
  { value := HasDeletedTuples t tile_group, after := t }

/-- A call of `GetInsertedTuples`: the single statement `return inserted_tuples;`. -/
def GetInsertedTuples_call (t : Transaction) : MethodCall TupleMap :=
  { value := GetInsertedTuples t, after := t }

/-- A call of `GetDeletedTuples`: the single statement `return deleted_tuples;`. -/
def GetDeletedTuples_call (t : Transaction) : MethodCall TupleMap :=
  { value := GetDeletedTuples t, after := t }

/-- The method `Transaction::IncrementRefCount`: `++ref_count;`.  The member
`ref_count` is declared in `transaction.h`, which is not among the sources; the
spec calls it an "atomic non-negative integer", so it is an unsigned counter,
and its width `bits` is a parameter.  The increment of an unsigned atomic
wraps around at `2 ^ bits`. -/
def IncrementRefCount (bits : Nat) (t : Transaction) : Transaction :=
  { t with ref_count := (t.ref_count + 1) % 2 ^ bits }

/-- The (handle, offset) pairs a sequence of item pointers resolves to under
the locator of `manager`, in order. -/
def resolvedPairs (manager : catalog.Manager) (S : List ItemPointer) :
    List (storage.TileGroupPtr × oid_t) :=
  S.map (fun p => ((manager.locatorIndex p.block).1, p.offset))

/-- The statements `m[handle].push_back(offset)` for a sequence of
(handle, offset) pairs, in order. -/
def recordPairs (m : TupleMap) : List (storage.TileGroupPtr × oid_t) → TupleMap
  | [] => m
  | (h, o) :: rest => recordPairs (TupleMap.pushBackAt (TupleMap.index m h) h o) rest

/-- A locator in which the distinct blocks 7 and 8 are both registered for the
tile group at address 100. -/
def sharedManager : catalog.Manager := { locator := [(7, 100), (8, 100)] }

/-! ## The locator -/

theorem lookup_append_other (l : List (oid_t × storage.TileGroupPtr)) (b b2 : oid_t)
    (p : storage.TileGroupPtr) (h : b ≠ b2) :
    catalog.lookup (l ++ [(b, p)]) b2 = catalog.lookup l b2 := by
  induction l with
  | nil => simp [catalog.lookup, h]
  | cons e rest ih =>
    obtain ⟨k, v⟩ := e
    by_cases hk : k = b2
    · simp [catalog.lookup, hk]
    · simp [catalog.lookup, hk, ih]

theorem lookup_append_self (l : List (oid_t × storage.TileGroupPtr)) (b : oid_t)
    (p : storage.TileGroupPtr) (h : catalog.lookup l b = none) :
    catalog.lookup (l ++ [(b, p)]) b = some p := by
  induction l with
  | nil => simp [catalog.lookup]
  | cons e rest ih =>
    obtain ⟨k, v⟩ := e
    by_cases hk : k = b
    · simp [catalog.lookup, hk] at h
    · simp only [catalog.lookup, hk, if_false] at h
      simp [catalog.lookup, hk, ih h]

/-- An access `manager.locator[b]` does not change what the locator yields
for any block afterwards. -/
theorem locatorIndex_stable (manager : catalog.Manager) (b b2 : oid_t) :
    ((manager.locatorIndex b).2.locatorIndex b2).1 = (manager.locatorIndex b2).1 := by
  unfold catalog.Manager.locatorIndex
  cases hb : catalog.lookup manager.locator b with
  | some p => simp
  | none =>
    by_cases hbb : b = b2
    · subst hbb
      simp [hb, lookup_append_self manager.locator b storage.nullTileGroup hb]
    · simp only [lookup_append_other manager.locator b b2 storage.nullTileGroup hbb]
      cases catalog.lookup manager.locator b2 <;> rfl

/-! ## `find` after `operator[]` and `push_back` -/

theorem find_orderedInsert_self (m : TupleMap) (key : storage.TileGroupPtr) (v : List oid_t)
    (h : TupleMap.find m key = none) :
    TupleMap.find (TupleMap.orderedInsert m key v) key = some v := by
  induction m with
  | nil => simp [TupleMap.orderedInsert, TupleMap.find]
  | cons e rest ih =>
    obtain ⟨k, w⟩ := e
    by_cases hk : k = key
    · simp [TupleMap.find, hk] at h
    · simp only [TupleMap.find, hk, if_false] at h
      by_cases hlt : key < k
      · simp [TupleMap.orderedInsert, hlt, TupleMap.find]
      · simp [TupleMap.orderedInsert, hlt, TupleMap.find, hk, ih h]

theorem find_orderedInsert_other (m : TupleMap) (key H : storage.TileGroupPtr)
    (v : List oid_t) (h : key ≠ H) :
    TupleMap.find (TupleMap.orderedInsert m key v) H = TupleMap.find m H := by
  induction m with
  | nil => simp [TupleMap.orderedInsert, TupleMap.find, h]
  | cons e rest ih =>
    obtain ⟨k, w⟩ := e
    by_cases hlt : key < k
    · simp [TupleMap.orderedInsert, hlt, TupleMap.find, h]
    · by_cases hk : k = H
      · subst hk
        simp [TupleMap.orderedInsert, hlt, TupleMap.find]
      · simp [TupleMap.orderedInsert, hlt, TupleMap.find, hk, ih]

theorem find_pushBackAt_self (m : TupleMap) (key : storage.TileGroupPtr) (o : oid_t) :
    TupleMap.find (TupleMap.pushBackAt m key o) key =
      (TupleMap.find m key).map (fun v => v ++ [o]) := by
  induction m with
  | nil => simp [TupleMap.pushBackAt, TupleMap.find]
  | cons e rest ih =>
    obtain ⟨k, w⟩ := e
    by_cases hk : k = key
    · simp [TupleMap.pushBackAt, TupleMap.find, hk]
    · simp [TupleMap.pushBackAt, TupleMap.find, hk, ih]

theorem find_pushBackAt_other (m : TupleMap) (key H : storage.TileGroupPtr) (o : oid_t)
    (h : key ≠ H) :
    TupleMap.find (TupleMap.pushBackAt m key o) H = TupleMap.find m H := by
  induction m with
  | nil => simp [TupleMap.pushBackAt, TupleMap.find]
  | cons e rest ih =>
    obtain ⟨k, w⟩ := e
    by_cases hk : k = key
    · subst hk
      simp [TupleMap.pushBackAt, TupleMap.find, h]
    · by_cases hH : k = H
      · subst hH
        simp [TupleMap.pushBackAt, TupleMap.find, hk]
      · simp [TupleMap.pushBackAt, TupleMap.find, hk, hH, ih]

/-- The statement `m[key].push_back(o)` read back at `key`. -/
theorem find_index_pushBack_self (m : TupleMap) (key : storage.TileGroupPtr) (o : oid_t) :
    TupleMap.find (TupleMap.pushBackAt (TupleMap.index m key) key o) key =
      some ((TupleMap.find m key).getD [] ++ [o]) := by
  rw [find_pushBackAt_self]
  unfold TupleMap.index
  cases h : TupleMap.find m key with
  | some v => simp [h]
  | none => simp [find_orderedInsert_self m key [] h]

/-- The statement `m[key].push_back(o)` read back at another key. -/
theorem find_index_pushBack_other (m : TupleMap) (key H : storage.TileGroupPtr) (o : oid_t)
    (h : key ≠ H) :
    TupleMap.find (TupleMap.pushBackAt (TupleMap.index m key) key o) H =
      TupleMap.find m H := by
  rw [find_pushBackAt_other _ _ _ _ h]
  unfold TupleMap.index
  cases hf : TupleMap.find m key with
  | some v => simp
  | none => simp [find_orderedInsert_other m key H [] h]

/-! ## The key order of the maps is kept -/

theorem mem_keys_orderedInsert (m : TupleMap) (key : storage.TileGroupPtr) (v : List oid_t)
    (a : storage.TileGroupPtr) :
    a ∈ TupleMap.keys (TupleMap.orderedInsert m key v) ↔ a = key ∨ a ∈ TupleMap.keys m := by
  induction m with
  | nil => simp [TupleMap.orderedInsert, TupleMap.keys]
  | cons e rest ih =>
    obtain ⟨k, w⟩ := e
    by_cases hlt : key < k
    · simp [TupleMap.orderedInsert, hlt, TupleMap.keys]
    · have ih2 : a ∈ List.map Prod.fst (TupleMap.orderedInsert rest key v) ↔
          a = key ∨ a ∈ List.map Prod.fst rest := ih
      simp only [TupleMap.orderedInsert, hlt, if_false, TupleMap.keys, List.map_cons,
        List.mem_cons, ih2]
      tauto

theorem ordered_orderedInsert (m : TupleMap) (key : storage.TileGroupPtr) (v : List oid_t)
    (hm : TupleMap.Ordered m) (hkey : TupleMap.find m key = none) :
    TupleMap.Ordered (TupleMap.orderedInsert m key v) := by
  induction m with
  | nil => simp [TupleMap.orderedInsert, TupleMap.Ordered, TupleMap.keys]
  | cons e rest ih =>
    obtain ⟨k, w⟩ := e
    have hk : k ≠ key := by
      intro hk
      simp [TupleMap.find, hk] at hkey
    have hrest : TupleMap.find rest key = none := by
      simpa [TupleMap.find, hk] using hkey
    have hm2 : (∀ a ∈ TupleMap.keys rest, k < a) ∧ TupleMap.Ordered rest := by
      simpa [TupleMap.Ordered, TupleMap.keys, List.pairwise_cons] using hm
    by_cases hlt : key < k
    · have hall : ∀ a ∈ TupleMap.keys ((k, w) :: rest), key < a := by
        intro a ha
        have ha2 : a = k ∨ a ∈ TupleMap.keys rest := by
          simpa [TupleMap.keys] using ha
        rcases ha2 with h1 | h2
        · rw [h1]
          exact hlt
        · exact Nat.lt_trans hlt (hm2.1 a h2)
      have hgoal : TupleMap.Ordered ((key, v) :: (k, w) :: rest) :=
        List.pairwise_cons.2 ⟨hall, hm⟩
      simpa [TupleMap.orderedInsert, hlt] using hgoal
    · have hkk : k < key := Nat.lt_of_le_of_ne (Nat.le_of_not_lt hlt) hk
      have hall : ∀ a ∈ TupleMap.keys (TupleMap.orderedInsert rest key v), k < a := by
        intro a ha
        rcases (mem_keys_orderedInsert rest key v a).1 ha with h1 | h2
        · rw [h1]
          exact hkk
        · exact hm2.1 a h2
      have hgoal : TupleMap.Ordered ((k, w) :: TupleMap.orderedInsert rest key v) :=
        List.pairwise_cons.2 ⟨hall, ih hm2.2 hrest⟩
      simpa [TupleMap.orderedInsert, hlt] using hgoal

theorem keys_pushBackAt (m : TupleMap) (key : storage.TileGroupPtr) (o : oid_t) :
    TupleMap.keys (TupleMap.pushBackAt m key o) = TupleMap.keys m := by
  induction m with
  | nil => rfl
  | cons e rest ih =>
    obtain ⟨k, w⟩ := e
    have ih2 : List.map Prod.fst (TupleMap.pushBackAt rest key o) =
        List.map Prod.fst rest := ih
    by_cases hk : k = key
    · simp [TupleMap.pushBackAt, TupleMap.keys, hk]
    · simp [TupleMap.pushBackAt, TupleMap.keys, hk, ih2]

/-- The statement `m[key].push_back(o)` keeps the keys strictly ascending. -/
theorem ordered_index_pushBack (m : TupleMap) (key : storage.TileGroupPtr) (o : oid_t)
    (hm : TupleMap.Ordered m) :
    TupleMap.Ordered (TupleMap.pushBackAt (TupleMap.index m key) key o) := by
  unfold TupleMap.Ordered
  rw [keys_pushBackAt]
  unfold TupleMap.index
  cases h : TupleMap.find m key with
  | some v => exact hm
  | none => exact ordered_orderedInsert m key [] hm h

/-- The maps of a record stay ordered under `RecordInsert` and `RecordDelete`. -/
theorem ordered_RecordInsert_RecordDelete (manager : catalog.Manager) (t : Transaction)
    (p : ItemPointer)
    (hm : TupleMap.Ordered t.inserted_tuples ∧ TupleMap.Ordered t.deleted_tuples) :
    (TupleMap.Ordered (RecordInsert manager t p).2.inserted_tuples ∧
      TupleMap.Ordered (RecordInsert manager t p).2.deleted_tuples) ∧
    (TupleMap.Ordered (RecordDelete manager t p).2.inserted_tuples ∧
      TupleMap.Ordered (RecordDelete manager t p).2.deleted_tuples) :=
  ⟨⟨ordered_index_pushBack _ _ _ hm.1, hm.2⟩, ⟨hm.1, ordered_index_pushBack _ _ _ hm.2⟩⟩

/-! ## Claims -/

/-- C1: after `RecordInsert` the sequence stored in `inserted_tuples` under the
handle the locator yields for `location.block` is the sequence stored there
before the call (the empty sequence when the handle was not a key) with
`location.offset` appended at the end. -/
theorem RecordInsert_appends_offset (manager : catalog.Manager) (t : Transaction)
    (location : ItemPointer) :
    TupleMap.find (RecordInsert manager t location).2.inserted_tuples
        (manager.locatorIndex location.block).1 =
      some ((TupleMap.find t.inserted_tuples (manager.locatorIndex location.block).1).getD []
        ++ [location.offset]) := by
  simp only [RecordInsert]
  exact find_index_pushBack_self _ _ _

/-- C2: after `RecordDelete` the sequence stored in `deleted_tuples` under the
handle the locator yields for `location.block` is the sequence stored there
before the call (the empty sequence when the handle was not a key) with
`location.offset` appended at the end. -/
theorem RecordDelete_appends_offset (manager : catalog.Manager) (t : Transaction)
    (location : ItemPointer) :
    TupleMap.find (RecordDelete manager t location).2.deleted_tuples
        (manager.locatorIndex location.block).1 =
      some ((TupleMap.find t.deleted_tuples (manager.locatorIndex location.block).1).getD []
        ++ [location.offset]) := by
  simp only [RecordDelete]
  exact find_index_pushBack_self _ _ _

/-- C5: `HasInsertedTuples(H)` is true exactly when `H` is a key of
`inserted_tuples` whose sequence is non-empty, and `HasDeletedTuples(H)` is
true exactly when `H` is a key of `deleted_tuples` whose sequence is
non-empty. -/
theorem HasTuples_iff_key_nonempty (t : Transaction) (H : storage.TileGroupPtr) :
    (HasInsertedTuples t H = true ↔
        ∃ v, TupleMap.find t.inserted_tuples H = some v ∧ v ≠ []) ∧
    (HasDeletedTuples t H = true ↔
        ∃ v, TupleMap.find t.deleted_tuples H = some v ∧ v ≠ []) := by
  constructor
  · unfold HasInsertedTuples
    cases TupleMap.find t.inserted_tuples H with
    | none => simp
    | some v => cases v <;> simp
  · unfold HasDeletedTuples
    cases TupleMap.find t.deleted_tuples H with
    | none => simp
    | some v => cases v <;> simp

/-! ## Runs of recording calls -/

theorem RecordInsert_manager (manager : catalog.Manager) (t : Transaction)
    (p : ItemPointer) :
    (RecordInsert manager t p).1 = (manager.locatorIndex p.block).2 := rfl

theorem RecordDelete_manager (manager : catalog.Manager) (t : Transaction)
    (p : ItemPointer) :
    (RecordDelete manager t p).1 = (manager.locatorIndex p.block).2 := rfl

theorem offsetsFor_stable (manager : catalog.Manager) (b : oid_t) (S : List ItemPointer)
    (H : storage.TileGroupPtr) :
    offsetsFor (manager.locatorIndex b).2 S H = offsetsFor manager S H := by
  unfold offsetsFor
  simp only [locatorIndex_stable]

theorem offsetsFor_cons (manager : catalog.Manager) (p : ItemPointer) (S : List ItemPointer)
    (H : storage.TileGroupPtr) :
    offsetsFor manager (p :: S) H =
      if (manager.locatorIndex p.block).1 = H then p.offset :: offsetsFor manager S H
      else offsetsFor manager S H := by
  unfold offsetsFor
  by_cases h : (manager.locatorIndex p.block).1 = H <;> simp [List.filter_cons, h]

theorem find_RecordInsert (manager : catalog.Manager) (t : Transaction) (p : ItemPointer)
    (H : storage.TileGroupPtr) :
    TupleMap.find (RecordInsert manager t p).2.inserted_tuples H =
      if (manager.locatorIndex p.block).1 = H then
        some ((TupleMap.find t.inserted_tuples H).getD [] ++ [p.offset])
      else TupleMap.find t.inserted_tuples H := by
  by_cases h : (manager.locatorIndex p.block).1 = H
  · rw [if_pos h, ← h]
    exact find_index_pushBack_self _ _ _
  · rw [if_neg h]
    exact find_index_pushBack_other _ _ _ _ h

theorem find_RecordDelete (manager : catalog.Manager) (t : Transaction) (p : ItemPointer)
    (H : storage.TileGroupPtr) :
    TupleMap.find (RecordDelete manager t p).2.deleted_tuples H =
      if (manager.locatorIndex p.block).1 = H then
        some ((TupleMap.find t.deleted_tuples H).getD [] ++ [p.offset])
      else TupleMap.find t.deleted_tuples H := by
  by_cases h : (manager.locatorIndex p.block).1 = H
  · rw [if_pos h, ← h]
    exact find_index_pushBack_self _ _ _
  · rw [if_neg h]
    exact find_index_pushBack_other _ _ _ _ h

theorem appendRecorded_cons (old : Option (List oid_t)) (o : oid_t) (offs : List oid_t) :
    appendRecorded (some (old.getD [] ++ [o])) offs = appendRecorded old (o :: offs) := by
  unfold appendRecorded
  by_cases h : offs = []
  · simp [h]
  · simp [h]

/-- What `find` yields in `inserted_tuples` after a run of recording calls. -/
theorem find_applyOps_inserted (ops : List RecordOp) (manager : catalog.Manager)
    (t : Transaction) (H : storage.TileGroupPtr) :
    TupleMap.find (applyOps manager t ops).2.inserted_tuples H =
      appendRecorded (TupleMap.find t.inserted_tuples H)
        (offsetsFor manager (insertsOf ops) H) := by
  induction ops generalizing manager t with
  | nil => simp [applyOps, insertsOf, offsetsFor, appendRecorded]
  | cons op ops ih =>
    cases op with
    | insert p =>
      simp only [applyOps, insertsOf]
      rw [ih, RecordInsert_manager, offsetsFor_stable, find_RecordInsert, offsetsFor_cons]
      by_cases h : (manager.locatorIndex p.block).1 = H
      · rw [if_pos h, if_pos h, appendRecorded_cons]
      · rw [if_neg h, if_neg h]
    | delete p =>
      simp only [applyOps, insertsOf]
      rw [ih, RecordDelete_manager, offsetsFor_stable]
      rfl

/-- What `find` yields in `deleted_tuples` after a run of recording calls. -/
theorem find_applyOps_deleted (ops : List RecordOp) (manager : catalog.Manager)
    (t : Transaction) (H : storage.TileGroupPtr) :
    TupleMap.find (applyOps manager t ops).2.deleted_tuples H =
      appendRecorded (TupleMap.find t.deleted_tuples H)
        (offsetsFor manager (deletesOf ops) H) := by
  induction ops generalizing manager t with
  | nil => simp [applyOps, deletesOf, offsetsFor, appendRecorded]
  | cons op ops ih =>
    cases op with
    | insert p =>
      simp only [applyOps, deletesOf]
      rw [ih, RecordInsert_manager, offsetsFor_stable]
      rfl
    | delete p =>
      simp only [applyOps, deletesOf]
      rw [ih, RecordDelete_manager, offsetsFor_stable, find_RecordDelete, offsetsFor_cons]
      by_cases h : (manager.locatorIndex p.block).1 = H
      · rw [if_pos h, if_pos h, appendRecorded_cons]
      · rw [if_neg h, if_neg h]

theorem recordInserts_eq_applyOps (S : List ItemPointer) (manager : catalog.Manager)
    (t : Transaction) :
    recordInserts manager t S = applyOps manager t (S.map RecordOp.insert) := by
  induction S generalizing manager t with
  | nil => rfl
  | cons p ps ih => simp only [recordInserts, List.map_cons, applyOps, ih]

theorem insertsOf_map_insert (S : List ItemPointer) :
    insertsOf (S.map RecordOp.insert) = S := by
  induction S with
  | nil => rfl
  | cons p ps ih => simp only [List.map_cons, insertsOf, ih]

/-- What `find` yields in `inserted_tuples` after a run of `RecordInsert` calls. -/
theorem find_recordInserts (S : List ItemPointer) (manager : catalog.Manager)
    (t : Transaction) (H : storage.TileGroupPtr) :
    TupleMap.find (recordInserts manager t S).2.inserted_tuples H =
      appendRecorded (TupleMap.find t.inserted_tuples H) (offsetsFor manager S H) := by
  rw [recordInserts_eq_applyOps, find_applyOps_inserted, insertsOf_map_insert]

theorem offsetsFor_eq_nil_iff (manager : catalog.Manager) (S : List ItemPointer)
    (H : storage.TileGroupPtr) :
    offsetsFor manager S H = [] ↔ ∀ p ∈ S, (manager.locatorIndex p.block).1 ≠ H := by
  unfold offsetsFor
  simp [List.filter_eq_nil_iff]

/-! ## Claims about runs of recording calls -/

/-- C3: round trip.  After the item pointers of `S` have been applied with
`RecordInsert`, in order, to a record whose maps are both empty, the view
returned by `GetInsertedTuples` maps a handle `H` to which some element of `S`
resolves to exactly the offsets of the elements of `S` whose block resolves to
`H`, in the order of `S`; a handle to which no element of `S` resolves is not
a key of the view. -/
theorem GetInsertedTuples_round_trip (manager : catalog.Manager) (t : Transaction)
    (S : List ItemPointer) (H : storage.TileGroupPtr)
    (hfresh : t.inserted_tuples = [] ∧ t.deleted_tuples = []) :
    ((∃ p ∈ S, (manager.locatorIndex p.block).1 = H) →
      TupleMap.find (GetInsertedTuples (recordInserts manager t S).2) H =
        some (offsetsFor manager S H)) ∧
    ((∀ p ∈ S, (manager.locatorIndex p.block).1 ≠ H) →
      TupleMap.find (GetInsertedTuples (recordInserts manager t S).2) H = none) := by
  have hfind : TupleMap.find (GetInsertedTuples (recordInserts manager t S).2) H =
      appendRecorded none (offsetsFor manager S H) := by
    unfold GetInsertedTuples
    rw [find_recordInserts, hfresh.1]
    rfl
  constructor
  · intro hex
    have hne : offsetsFor manager S H ≠ [] := by
      intro hnil
      obtain ⟨p, hp, hpH⟩ := hex
      exact (offsetsFor_eq_nil_iff manager S H).1 hnil p hp hpH
    rw [hfind]
    simp [appendRecorded, hne]
  · intro hall
    rw [hfind, (offsetsFor_eq_nil_iff manager S H).2 hall]
    rfl

/-- Witness for C3: inserts (7, 3) and (7, 9) with block 7 registered for the
tile group at 100. -/
theorem GetInsertedTuples_round_trip_witness :
    ((sampleRecord 2).inserted_tuples = [] ∧ (sampleRecord 2).deleted_tuples = []) ∧
    TupleMap.find
      (GetInsertedTuples (recordInserts sampleManager (sampleRecord 2) [⟨7, 3⟩, ⟨7, 9⟩]).2) 100 =
        some [3, 9] ∧
    TupleMap.find
      (GetInsertedTuples (recordInserts sampleManager (sampleRecord 2) [⟨7, 3⟩, ⟨7, 9⟩]).2) 5 =
        none :=
  ⟨⟨rfl, rfl⟩,
   (GetInsertedTuples_round_trip sampleManager (sampleRecord 2) [⟨7, 3⟩, ⟨7, 9⟩] 100
      ⟨rfl, rfl⟩).1 ⟨⟨7, 3⟩, by simp, by decide⟩,
   (GetInsertedTuples_round_trip sampleManager (sampleRecord 2) [⟨7, 3⟩, ⟨7, 9⟩] 5
      ⟨rfl, rfl⟩).2 (by decide)⟩

/-- C4: after a run of `RecordInsert` calls on a record whose maps are both
empty, `HasInsertedTuples(H)` is true if and only if at least one of the
recorded item pointers has a block that the locator resolves to `H`. -/
theorem HasInsertedTuples_iff_recorded (manager : catalog.Manager) (t : Transaction)
    (S : List ItemPointer) (H : storage.TileGroupPtr)
    (hfresh : t.inserted_tuples = [] ∧ t.deleted_tuples = []) :
    HasInsertedTuples (recordInserts manager t S).2 H = true ↔
      ∃ p ∈ S, (manager.locatorIndex p.block).1 = H := by
  have hfind : TupleMap.find (recordInserts manager t S).2.inserted_tuples H =
      appendRecorded none (offsetsFor manager S H) := by
    rw [find_recordInserts, hfresh.1]
    rfl
  unfold HasInsertedTuples
  rw [hfind]
  by_cases hnil : offsetsFor manager S H = []
  · have hall := (offsetsFor_eq_nil_iff manager S H).1 hnil
    simp only [appendRecorded, hnil, if_true]
    constructor
    · intro h
      cases h
    · rintro ⟨p, hp, hpH⟩
      exact absurd hpH (hall p hp)
  · have hex : ∃ p ∈ S, (manager.locatorIndex p.block).1 = H := by
      by_contra hno
      push_neg at hno
      exact hnil ((offsetsFor_eq_nil_iff manager S H).2 hno)
    simp only [appendRecorded, hnil, if_false]
    constructor
    · intro _
      exact hex
    · intro _
      cases hoff : offsetsFor manager S H with
      | nil => exact absurd hoff hnil
      | cons o rest => simp

/-- Witness for C4: after the inserts (7, 3) and (7, 9) the tile group at 100,
to which block 7 resolves, has inserted tuples. -/
theorem HasInsertedTuples_iff_recorded_witness :
    ((sampleRecord 2).inserted_tuples = [] ∧ (sampleRecord 2).deleted_tuples = []) ∧
    (HasInsertedTuples (recordInserts sampleManager (sampleRecord 2) [⟨7, 3⟩, ⟨7, 9⟩]).2 100
        = true ↔
      ∃ p ∈ ([⟨7, 3⟩, ⟨7, 9⟩] : List ItemPointer),
        (sampleManager.locatorIndex p.block).1 = 100) :=
  ⟨⟨rfl, rfl⟩,
   HasInsertedTuples_iff_recorded sampleManager (sampleRecord 2) [⟨7, 3⟩, ⟨7, 9⟩] 100
     ⟨rfl, rfl⟩⟩

/-- C10: in a record reached from one whose maps are both empty by a run of
`RecordInsert` and `RecordDelete` calls, a handle that is a key of
`inserted_tuples` or of `deleted_tuples` maps to a non-empty sequence, and it
is a key only if a call has recorded an offset for it. -/
theorem keys_map_to_nonempty (manager : catalog.Manager) (t : Transaction)
    (ops : List RecordOp) (H : storage.TileGroupPtr)
    (hfresh : t.inserted_tuples = [] ∧ t.deleted_tuples = []) :
    (∀ v, TupleMap.find (applyOps manager t ops).2.inserted_tuples H = some v →
      v ≠ [] ∧ ∃ p ∈ insertsOf ops, (manager.locatorIndex p.block).1 = H) ∧
    (∀ v, TupleMap.find (applyOps manager t ops).2.deleted_tuples H = some v →
      v ≠ [] ∧ ∃ p ∈ deletesOf ops, (manager.locatorIndex p.block).1 = H) := by
  have key : ∀ (S : List ItemPointer) (v : List oid_t),
      appendRecorded none (offsetsFor manager S H) = some v →
        v ≠ [] ∧ ∃ p ∈ S, (manager.locatorIndex p.block).1 = H := by
    intro S v hv
    by_cases hnil : offsetsFor manager S H = []
    · simp [appendRecorded, hnil] at hv
    · have hex : ∃ p ∈ S, (manager.locatorIndex p.block).1 = H := by
        by_contra hno
        push_neg at hno
        exact hnil ((offsetsFor_eq_nil_iff manager S H).2 hno)
      simp only [appendRecorded, hnil, if_false, Option.getD_none, List.nil_append,
        Option.some.injEq] at hv
      exact ⟨hv ▸ hnil, hex⟩
  constructor
  · intro v hv
    rw [find_applyOps_inserted, hfresh.1] at hv
    exact key _ v hv
  · intro v hv
    rw [find_applyOps_deleted, hfresh.2] at hv
    exact key _ v hv

/-- Witness for C10: the run insert (7, 3), insert (7, 9), delete (7, 3). -/
theorem keys_map_to_nonempty_witness :
    ((sampleRecord 2).inserted_tuples = [] ∧ (sampleRecord 2).deleted_tuples = []) ∧
    ([3, 9] ≠ ([] : List oid_t) ∧
      ∃ p ∈ insertsOf [RecordOp.insert ⟨7, 3⟩, RecordOp.insert ⟨7, 9⟩, RecordOp.delete ⟨7, 3⟩],
        (sampleManager.locatorIndex p.block).1 = 100) :=
  ⟨⟨rfl, rfl⟩,
   (keys_map_to_nonempty sampleManager (sampleRecord 2)
      [RecordOp.insert ⟨7, 3⟩, RecordOp.insert ⟨7, 9⟩, RecordOp.delete ⟨7, 3⟩] 100
      ⟨rfl, rfl⟩).1 [3, 9] rfl⟩

/-! ## An unregistered block -/

/-- C6, counterexample: block 42 is not registered in the empty locator, yet
`RecordInsert((42, 0))` on a record with empty maps changes `inserted_tuples`:
the offset 0 is stored under the null handle. -/
theorem RecordInsert_unregistered_counterexample :
    catalog.Manager.registered { locator := [] } 42 = false ∧
    (RecordInsert { locator := [] } (sampleRecord 1) ⟨42, 0⟩).2.inserted_tuples =
      [(storage.nullTileGroup, [0])] ∧
    (RecordInsert { locator := [] } (sampleRecord 1) ⟨42, 0⟩).2.inserted_tuples ≠
      (sampleRecord 1).inserted_tuples := by
  decide

/-- C6, amended: `RecordInsert` on an item pointer whose block is not
registered in the locator has no failure outcome; the locator yields the null
handle for the block, the offset is appended to the sequence stored under the
null handle in `inserted_tuples`, the sequences under all other handles are
unchanged, so `inserted_tuples` is changed, and `deleted_tuples` is unchanged. -/
theorem RecordInsert_unregistered (manager : catalog.Manager) (t : Transaction)
    (location : ItemPointer) (hunreg : manager.registered location.block = false) :
    (manager.locatorIndex location.block).1 = storage.nullTileGroup ∧
    TupleMap.find (RecordInsert manager t location).2.inserted_tuples storage.nullTileGroup =
      some ((TupleMap.find t.inserted_tuples storage.nullTileGroup).getD []
        ++ [location.offset]) ∧
    (∀ H, H ≠ storage.nullTileGroup →
      TupleMap.find (RecordInsert manager t location).2.inserted_tuples H =
        TupleMap.find t.inserted_tuples H) ∧
    (RecordInsert manager t location).2.inserted_tuples ≠ t.inserted_tuples ∧
    (RecordInsert manager t location).2.deleted_tuples = t.deleted_tuples := by
  have hnull : (manager.locatorIndex location.block).1 = storage.nullTileGroup := by
    unfold catalog.Manager.registered at hunreg
    unfold catalog.Manager.locatorIndex
    cases hl : catalog.lookup manager.locator location.block with
    | none => rfl
    | some p => simp [hl] at hunreg
  have hself : TupleMap.find (RecordInsert manager t location).2.inserted_tuples
      storage.nullTileGroup =
        some ((TupleMap.find t.inserted_tuples storage.nullTileGroup).getD []
          ++ [location.offset]) := by
    rw [find_RecordInsert, if_pos hnull]
  refine ⟨hnull, hself, ?_, ?_, rfl⟩
  · intro H hH
    rw [find_RecordInsert, if_neg (by rw [hnull]; exact fun h => hH h.symm)]
  · intro heq
    rw [heq] at hself
    cases hf : TupleMap.find t.inserted_tuples storage.nullTileGroup with
    | none => simp [hf] at hself
    | some v =>
      rw [hf] at hself
      have hlen := congrArg (fun x => (x.getD []).length) hself
      simp at hlen

/-- Witness for C6, amended: `RecordInsert((42, 0))` with only block 7
registered. -/
theorem RecordInsert_unregistered_witness :
    sampleManager.registered 42 = false ∧
    TupleMap.find (RecordInsert sampleManager (sampleRecord 1) ⟨42, 0⟩).2.inserted_tuples
        storage.nullTileGroup = some [0] ∧
    (RecordInsert sampleManager (sampleRecord 1) ⟨42, 0⟩).2.deleted_tuples = [] :=
  ⟨by decide,
   (RecordInsert_unregistered sampleManager (sampleRecord 1) ⟨42, 0⟩ (by decide)).2.1,
   (RecordInsert_unregistered sampleManager (sampleRecord 1) ⟨42, 0⟩ (by decide)).2.2.2.2⟩

/-! ## The reference count -/

theorem decrementStep_live_of_gt_one (t : Transaction) (h : 1 < t.ref_count) :
    decrementStep (RecordState.live t) =
      RecordState.live { t with ref_count := t.ref_count - 1 } := by
  have hpos : 0 < t.ref_count := by omega
  have hne : t.ref_count ≠ 1 := by omega
  simp [decrementStep, DecrementRefCount, hpos, hne]

theorem decrementStep_live_of_eq_one (t : Transaction) (h : t.ref_count = 1) :
    decrementStep (RecordState.live t) = RecordState.destroyed := by
  simp [decrementStep, DecrementRefCount, h]

theorem decrementRun_live (k : Nat) (t : Transaction) (h : k < t.ref_count) :
    decrementRun k (RecordState.live t) =
      RecordState.live { t with ref_count := t.ref_count - k } := by
  induction k generalizing t with
  | zero => rfl
  | succ k ih =>
    have h1 : 1 < t.ref_count := by omega
    rw [decrementRun, decrementStep_live_of_gt_one t h1, ih]
    · simp only [Transaction.mk.injEq, RecordState.live.injEq, true_and]
      omega
    · show k < t.ref_count - 1
      omega

theorem decrementRun_destroyed (n : Nat) (t : Transaction) (hn : 1 ≤ n)
    (h : t.ref_count = n) :
    decrementRun n (RecordState.live t) = RecordState.destroyed := by
  induction n generalizing t with
  | zero => omega
  | succ n ih =>
    by_cases hn0 : n = 0
    · subst hn0
      rw [decrementRun, decrementStep_live_of_eq_one t h]
      rfl
    · rw [decrementRun, decrementStep_live_of_gt_one t (by omega)]
      apply ih
      · omega
      · show t.ref_count - 1 = n
        omega

/-- C7: on a record with `ref_count = n > 0`, `DecrementRefCount` passes its
assertion, leaves the count at `n - 1` and every other member as it was, and
executes `delete this` if and only if `n = 1`. -/
theorem DecrementRefCount_destroys_iff_one (t : Transaction) (h : 0 < t.ref_count) :
    (DecrementRefCount t).assert_failed = false ∧
    (DecrementRefCount t).record = { t with ref_count := t.ref_count - 1 } ∧
    ((DecrementRefCount t).deleted = true ↔ t.ref_count = 1) := by
  unfold DecrementRefCount
  by_cases h1 : t.ref_count = 1
  · simp [h, h1]
  · simp [h, h1]

/-- Witness for C7: a count of 1 drops to 0 and the record is deleted. -/
theorem DecrementRefCount_destroys_iff_one_witness :
    0 < (sampleRecord 1).ref_count ∧
    (DecrementRefCount (sampleRecord 1)).record.ref_count = 0 ∧
    (DecrementRefCount (sampleRecord 1)).deleted = true :=
  ⟨by decide,
   congrArg Transaction.ref_count
     (DecrementRefCount_destroys_iff_one (sampleRecord 1) (by decide)).2.1,
   (DecrementRefCount_destroys_iff_one (sampleRecord 1) (by decide)).2.2.2 rfl⟩

/-- C8: on a record whose `ref_count` is 0, `DecrementRefCount` fails its
assertion, changes no member and does not execute `delete this`; on a record
whose `ref_count` is positive the assertion does not fail and the count after
the call is the count before minus one as integers, so it is not below
zero. -/
theorem DecrementRefCount_assertion (t : Transaction) :
    (t.ref_count = 0 →
      (DecrementRefCount t).assert_failed = true ∧
      (DecrementRefCount t).record = t ∧
      (DecrementRefCount t).deleted = false) ∧
    (0 < t.ref_count →
      (DecrementRefCount t).assert_failed = false ∧
      ((DecrementRefCount t).record.ref_count : Int) = (t.ref_count : Int) - 1 ∧
      (0 : Int) ≤ (t.ref_count : Int) - 1) := by
  constructor
  · intro h0
    simp [DecrementRefCount, h0]
  · intro hpos
    have hrec := (DecrementRefCount_destroys_iff_one t hpos)
    refine ⟨hrec.1, ?_, by omega⟩
    rw [hrec.2.1]
    show ((t.ref_count - 1 : Nat) : Int) = (t.ref_count : Int) - 1
    omega

/-- Witness for C8: a count of 0 fails the assertion, a count of 2 does not. -/
theorem DecrementRefCount_assertion_witness :
    ((sampleRecord 0).ref_count = 0 ∧
      (DecrementRefCount (sampleRecord 0)).assert_failed = true ∧
      (DecrementRefCount (sampleRecord 0)).record = sampleRecord 0 ∧
      (DecrementRefCount (sampleRecord 0)).deleted = false) ∧
    (0 < (sampleRecord 2).ref_count ∧
      (DecrementRefCount (sampleRecord 2)).assert_failed = false) :=
  ⟨⟨rfl, (DecrementRefCount_assertion (sampleRecord 0)).1 rfl⟩,
   ⟨by decide, ((DecrementRefCount_assertion (sampleRecord 2)).2 (by decide)).1⟩⟩

/-- C9: on a record with `ref_count = n ≥ 1`, a run of `n` calls of
`DecrementRefCount` leaves the record live with `ref_count = n - k` after each
of the first `k < n` calls and destroys it at the `n`-th call. -/
theorem last_release_destroys (t : Transaction) (n : Nat) (hn : 1 ≤ n)
    (h : t.ref_count = n) :
    (∀ k, k < n →
      decrementRun k (RecordState.live t) =
        RecordState.live { t with ref_count := n - k }) ∧
    decrementRun n (RecordState.live t) = RecordState.destroyed := by
  constructor
  · intro k hk
    rw [decrementRun_live k t (by omega), h]
  · exact decrementRun_destroyed n t hn h

/-- Witness for C9: a record with `ref_count = 2` (owner and list) survives the
first decrement with a count of 1 and is destroyed by the second. -/
theorem last_release_destroys_witness :
    1 ≤ 2 ∧ (sampleRecord 2).ref_count = 2 ∧
    decrementRun 1 (RecordState.live (sampleRecord 2)) =
      RecordState.live (sampleRecord 1) ∧
    decrementRun 2 (RecordState.live (sampleRecord 2)) = RecordState.destroyed :=
  ⟨by decide, rfl,
   (last_release_destroys (sampleRecord 2) 2 (by decide) rfl).1 1 (by decide),
   (last_release_destroys (sampleRecord 2) 2 (by decide) rfl).2⟩

/-! ## Duplicates, independence of the two maps, and frames -/

theorem insertsOf_replicate_insert (k : Nat) (p : ItemPointer) :
    insertsOf (List.replicate k (RecordOp.insert p)) = List.replicate k p := by
  induction k with
  | zero => rfl
  | succ k ih => simp only [List.replicate_succ, insertsOf, ih]

theorem deletesOf_replicate_delete (k : Nat) (p : ItemPointer) :
    deletesOf (List.replicate k (RecordOp.delete p)) = List.replicate k p := by
  induction k with
  | zero => rfl
  | succ k ih => simp only [List.replicate_succ, deletesOf, ih]

theorem offsetsFor_replicate (manager : catalog.Manager) (k : Nat) (p : ItemPointer) :
    offsetsFor manager (List.replicate k p) (manager.locatorIndex p.block).1 =
      List.replicate k p.offset := by
  induction k with
  | zero => rfl
  | succ k ih => rw [List.replicate_succ, offsetsFor_cons, if_pos rfl, ih, List.replicate_succ]

theorem getD_appendRecorded (old : Option (List oid_t)) (offs : List oid_t) :
    (appendRecorded old offs).getD [] = old.getD [] ++ offs := by
  unfold appendRecorded
  by_cases h : offs = []
  · simp [h]
  · simp [h]

/-- C11: duplicates are retained.  Calling `RecordInsert(p)` `k` times in a row
appends `k` copies of `p.offset` to the sequence stored under the handle `p`
resolves to, so the number of occurrences of `p.offset` there grows by exactly
`k`; likewise for `RecordDelete` on `deleted_tuples`. -/
theorem duplicates_retained (manager : catalog.Manager) (t : Transaction)
    (p : ItemPointer) (k : Nat) :
    ((TupleMap.find (applyOps manager t (List.replicate k (RecordOp.insert p))).2.inserted_tuples
          (manager.locatorIndex p.block).1).getD [] =
        (TupleMap.find t.inserted_tuples (manager.locatorIndex p.block).1).getD []
          ++ List.replicate k p.offset ∧
      List.count p.offset
          ((TupleMap.find
            (applyOps manager t (List.replicate k (RecordOp.insert p))).2.inserted_tuples
            (manager.locatorIndex p.block).1).getD []) =
        List.count p.offset
          ((TupleMap.find t.inserted_tuples (manager.locatorIndex p.block).1).getD []) + k) ∧
    ((TupleMap.find (applyOps manager t (List.replicate k (RecordOp.delete p))).2.deleted_tuples
          (manager.locatorIndex p.block).1).getD [] =
        (TupleMap.find t.deleted_tuples (manager.locatorIndex p.block).1).getD []
          ++ List.replicate k p.offset ∧
      List.count p.offset
          ((TupleMap.find
            (applyOps manager t (List.replicate k (RecordOp.delete p))).2.deleted_tuples
            (manager.locatorIndex p.block).1).getD []) =
        List.count p.offset
          ((TupleMap.find t.deleted_tuples (manager.locatorIndex p.block).1).getD []) + k) := by
  have hins : (TupleMap.find
      (applyOps manager t (List.replicate k (RecordOp.insert p))).2.inserted_tuples
      (manager.locatorIndex p.block).1).getD [] =
        (TupleMap.find t.inserted_tuples (manager.locatorIndex p.block).1).getD []
          ++ List.replicate k p.offset := by
    rw [find_applyOps_inserted, insertsOf_replicate_insert, offsetsFor_replicate,
      getD_appendRecorded]
  have hdel : (TupleMap.find
      (applyOps manager t (List.replicate k (RecordOp.delete p))).2.deleted_tuples
      (manager.locatorIndex p.block).1).getD [] =
        (TupleMap.find t.deleted_tuples (manager.locatorIndex p.block).1).getD []
          ++ List.replicate k p.offset := by
    rw [find_applyOps_deleted, deletesOf_replicate_delete, offsetsFor_replicate,
      getD_appendRecorded]
  refine ⟨⟨hins, ?_⟩, ⟨hdel, ?_⟩⟩
  · rw [hins, List.count_append, List.count_replicate_self]
  · rw [hdel, List.count_append, List.count_replicate_self]

/-- C12: inserts and deletes are tracked independently.  `RecordInsert` leaves
`deleted_tuples` unchanged and `RecordDelete` leaves `inserted_tuples`
unchanged; after inserts (7, 3), (7, 9) and delete (7, 3) on a record with
empty maps, with block 7 resolving to `X`, `inserted_tuples[X] = [3, 9]`,
`deleted_tuples[X] = [3]` and `HasInsertedTuples(X)` is true. -/
theorem inserts_deletes_independent (manager : catalog.Manager) (t : Transaction)
    (p : ItemPointer) (X : storage.TileGroupPtr) :
    (RecordInsert manager t p).2.deleted_tuples = t.deleted_tuples ∧
    (RecordDelete manager t p).2.inserted_tuples = t.inserted_tuples ∧
    ((manager.locatorIndex 7).1 = X →
      t.inserted_tuples = [] ∧ t.deleted_tuples = [] →
      TupleMap.find
        (applyOps manager t
          [RecordOp.insert ⟨7, 3⟩, RecordOp.insert ⟨7, 9⟩,
            RecordOp.delete ⟨7, 3⟩]).2.inserted_tuples
        X = some [3, 9] ∧
      TupleMap.find
        (applyOps manager t
          [RecordOp.insert ⟨7, 3⟩, RecordOp.insert ⟨7, 9⟩,
            RecordOp.delete ⟨7, 3⟩]).2.deleted_tuples
        X = some [3] ∧
      HasInsertedTuples
        (applyOps manager t
          [RecordOp.insert ⟨7, 3⟩, RecordOp.insert ⟨7, 9⟩, RecordOp.delete ⟨7, 3⟩]).2 X =
        true) := by
  refine ⟨rfl, rfl, ?_⟩
  intro hX hfresh
  have hins : TupleMap.find
      (applyOps manager t
        [RecordOp.insert ⟨7, 3⟩, RecordOp.insert ⟨7, 9⟩, RecordOp.delete ⟨7, 3⟩]).2.inserted_tuples
      X = some [3, 9] := by
    rw [find_applyOps_inserted, hfresh.1]
    simp [insertsOf, offsetsFor, hX, appendRecorded, TupleMap.find]
  have hdel : TupleMap.find
      (applyOps manager t
        [RecordOp.insert ⟨7, 3⟩, RecordOp.insert ⟨7, 9⟩, RecordOp.delete ⟨7, 3⟩]).2.deleted_tuples
      X = some [3] := by
    rw [find_applyOps_deleted, hfresh.2]
    simp [deletesOf, offsetsFor, hX, appendRecorded, TupleMap.find]
  refine ⟨hins, hdel, ?_⟩
  unfold HasInsertedTuples
  rw [hins]
  rfl

/-- Witness for C12: block 7 registered for the tile group at 100. -/
theorem inserts_deletes_independent_witness :
    ((sampleManager.locatorIndex 7).1 = 100 ∧
      (sampleRecord 2).inserted_tuples = [] ∧ (sampleRecord 2).deleted_tuples = []) ∧
    TupleMap.find
      (applyOps sampleManager (sampleRecord 2)
        [RecordOp.insert ⟨7, 3⟩, RecordOp.insert ⟨7, 9⟩, RecordOp.delete ⟨7, 3⟩]).2.inserted_tuples
      100 = some [3, 9] ∧
    TupleMap.find
      (applyOps sampleManager (sampleRecord 2)
        [RecordOp.insert ⟨7, 3⟩, RecordOp.insert ⟨7, 9⟩, RecordOp.delete ⟨7, 3⟩]).2.deleted_tuples
      100 = some [3] :=
  ⟨⟨by decide, rfl, rfl⟩,
   ((inserts_deletes_independent sampleManager (sampleRecord 2) ⟨7, 3⟩ 100).2.2 (by decide)
      ⟨rfl, rfl⟩).1,
   ((inserts_deletes_independent sampleManager (sampleRecord 2) ⟨7, 3⟩ 100).2.2 (by decide)
      ⟨rfl, rfl⟩).2.1⟩

/-- C19: the read operations are pure.  `HasInsertedTuples(H)`,
`HasDeletedTuples(H)`, `GetInsertedTuples()` and `GetDeletedTuples()` leave
`inserted_tuples`, `deleted_tuples` and `ref_count` (every member) unchanged;
a handle that is not a key is still not a key after it has been queried; the
`Get*` views are the stored maps in full. -/
theorem read_operations_pure (t : Transaction) (H : storage.TileGroupPtr) :
    ((HasInsertedTuples_call t H).after = t ∧ (HasDeletedTuples_call t H).after = t ∧
      (GetInsertedTuples_call t).after = t ∧ (GetDeletedTuples_call t).after = t) ∧
    ((HasInsertedTuples_call t H).after.inserted_tuples = t.inserted_tuples ∧
      (HasInsertedTuples_call t H).after.deleted_tuples = t.deleted_tuples ∧
      (HasInsertedTuples_call t H).after.ref_count = t.ref_count) ∧
    (TupleMap.find t.inserted_tuples H = none →
      TupleMap.find (HasInsertedTuples_call t H).after.inserted_tuples H = none) ∧
    (TupleMap.find t.deleted_tuples H = none →
      TupleMap.find (HasDeletedTuples_call t H).after.deleted_tuples H = none) ∧
    (GetInsertedTuples_call t).value = t.inserted_tuples ∧
    (GetDeletedTuples_call t).value = t.deleted_tuples := by
  refine ⟨⟨rfl, rfl, rfl, rfl⟩, ⟨rfl, rfl, rfl⟩, ?_, ?_, rfl, rfl⟩
  · intro h
    exact h
  · intro h
    exact h

/-- Witness for C19: querying the handle 100 on a record with empty maps
creates no key for it. -/
theorem read_operations_pure_witness :
    TupleMap.find (sampleRecord 1).inserted_tuples 100 = none ∧
    TupleMap.find (HasInsertedTuples_call (sampleRecord 1) 100).after.inserted_tuples 100 =
      none :=
  ⟨rfl, (read_operations_pure (sampleRecord 1) 100).2.2.1 rfl⟩

theorem totalOffsets_orderedInsert_nil (m : TupleMap) (key : storage.TileGroupPtr) :
    totalOffsets (TupleMap.orderedInsert m key []) = totalOffsets m := by
  induction m with
  | nil => rfl
  | cons e rest ih =>
    obtain ⟨k, w⟩ := e
    by_cases hlt : key < k
    · simp [TupleMap.orderedInsert, hlt, totalOffsets]
    · simp [TupleMap.orderedInsert, hlt, totalOffsets, ih]

theorem totalOffsets_index (m : TupleMap) (key : storage.TileGroupPtr) :
    totalOffsets (TupleMap.index m key) = totalOffsets m := by
  unfold TupleMap.index
  cases h : TupleMap.find m key with
  | some v => rfl
  | none => exact totalOffsets_orderedInsert_nil m key

theorem find_index_isSome (m : TupleMap) (key : storage.TileGroupPtr) :
    (TupleMap.find (TupleMap.index m key) key).isSome = true := by
  unfold TupleMap.index
  cases h : TupleMap.find m key with
  | some v => simp [h]
  | none => simp [find_orderedInsert_self m key [] h]

theorem totalOffsets_pushBackAt (m : TupleMap) (key : storage.TileGroupPtr) (o : oid_t)
    (h : (TupleMap.find m key).isSome = true) :
    totalOffsets (TupleMap.pushBackAt m key o) = totalOffsets m + 1 := by
  induction m with
  | nil => simp [TupleMap.find] at h
  | cons e rest ih =>
    obtain ⟨k, w⟩ := e
    by_cases hk : k = key
    · simp only [TupleMap.pushBackAt, hk, if_true, totalOffsets, List.length_append,
        List.length_singleton]
      omega
    · simp only [TupleMap.find, hk, if_false] at h
      simp only [TupleMap.pushBackAt, hk, if_false, totalOffsets, ih h]
      omega

/-- The statement `m[key].push_back(o)` adds one to the number of offsets. -/
theorem totalOffsets_index_pushBack (m : TupleMap) (key : storage.TileGroupPtr) (o : oid_t) :
    totalOffsets (TupleMap.pushBackAt (TupleMap.index m key) key o) = totalOffsets m + 1 := by
  rw [totalOffsets_pushBackAt _ _ _ (find_index_isSome m key), totalOffsets_index]

/-- C20: `RecordInsert` changes exactly one entry.  With `H` the handle the
block of the item pointer resolves to, the sequence under every other handle
is unchanged, the previous sequence under `H` is a prefix of the new one (the
new one is the previous one followed by the offset), the total number of
offsets in `inserted_tuples` grows by exactly one, and `ref_count` is
unchanged; the same holds for `RecordDelete` on `deleted_tuples`. -/
theorem record_changes_one_entry (manager : catalog.Manager) (t : Transaction)
    (p : ItemPointer) :
    ((∀ K, K ≠ (manager.locatorIndex p.block).1 →
        TupleMap.find (RecordInsert manager t p).2.inserted_tuples K =
          TupleMap.find t.inserted_tuples K) ∧
      (TupleMap.find t.inserted_tuples (manager.locatorIndex p.block).1).getD [] <+:
        (TupleMap.find (RecordInsert manager t p).2.inserted_tuples
          (manager.locatorIndex p.block).1).getD [] ∧
      (TupleMap.find (RecordInsert manager t p).2.inserted_tuples
          (manager.locatorIndex p.block).1).getD [] =
        (TupleMap.find t.inserted_tuples (manager.locatorIndex p.block).1).getD []
          ++ [p.offset] ∧
      totalOffsets (RecordInsert manager t p).2.inserted_tuples =
        totalOffsets t.inserted_tuples + 1 ∧
      (RecordInsert manager t p).2.ref_count = t.ref_count) ∧
    ((∀ K, K ≠ (manager.locatorIndex p.block).1 →
        TupleMap.find (RecordDelete manager t p).2.deleted_tuples K =
          TupleMap.find t.deleted_tuples K) ∧
      (TupleMap.find t.deleted_tuples (manager.locatorIndex p.block).1).getD [] <+:
        (TupleMap.find (RecordDelete manager t p).2.deleted_tuples
          (manager.locatorIndex p.block).1).getD [] ∧
      (TupleMap.find (RecordDelete manager t p).2.deleted_tuples
          (manager.locatorIndex p.block).1).getD [] =
        (TupleMap.find t.deleted_tuples (manager.locatorIndex p.block).1).getD []
          ++ [p.offset] ∧
      totalOffsets (RecordDelete manager t p).2.deleted_tuples =
        totalOffsets t.deleted_tuples + 1 ∧
      (RecordDelete manager t p).2.ref_count = t.ref_count) := by
  have hins : (TupleMap.find (RecordInsert manager t p).2.inserted_tuples
      (manager.locatorIndex p.block).1).getD [] =
        (TupleMap.find t.inserted_tuples (manager.locatorIndex p.block).1).getD []
          ++ [p.offset] := by
    rw [find_RecordInsert, if_pos rfl]
    rfl
  have hdel : (TupleMap.find (RecordDelete manager t p).2.deleted_tuples
      (manager.locatorIndex p.block).1).getD [] =
        (TupleMap.find t.deleted_tuples (manager.locatorIndex p.block).1).getD []
          ++ [p.offset] := by
    rw [find_RecordDelete, if_pos rfl]
    rfl
  refine ⟨⟨?_, ?_, hins, ?_, rfl⟩, ⟨?_, ?_, hdel, ?_, rfl⟩⟩
  · intro K hK
    rw [find_RecordInsert, if_neg (fun h => hK h.symm)]
  · rw [hins]
    exact List.prefix_append _ _
  · exact totalOffsets_index_pushBack _ _ _
  · intro K hK
    rw [find_RecordDelete, if_neg (fun h => hK h.symm)]
  · rw [hdel]
    exact List.prefix_append _ _
  · exact totalOffsets_index_pushBack _ _ _

/-- Witness for C20: after `RecordInsert((7, 3))` with block 7 resolving to the
tile group at 100, the handle 5 is still not a key of `inserted_tuples`. -/
theorem record_changes_one_entry_witness :
    (5 : storage.TileGroupPtr) ≠ (sampleManager.locatorIndex 7).1 ∧
    TupleMap.find (RecordInsert sampleManager (sampleRecord 2) ⟨7, 3⟩).2.inserted_tuples 5 =
      none :=
  ⟨by decide,
   (record_changes_one_entry sampleManager (sampleRecord 2) ⟨7, 3⟩).1.1 5 (by decide)⟩

/-! ## The commit stamp -/

/-- C21, counterexample: on a 64-bit counter holding its largest value,
`IncrementRefCount` wraps the count to 0 instead of raising it by one, and the
`DecrementRefCount` that follows fails its assertion and does not restore the
count. -/
theorem increment_decrement_counterexample :
    1 ≤ (sampleRecord (2 ^ 64 - 1)).ref_count ∧
    (sampleRecord (2 ^ 64 - 1)).ref_count < 2 ^ 64 ∧
    (IncrementRefCount 64 (sampleRecord (2 ^ 64 - 1))).ref_count = 0 ∧
    (IncrementRefCount 64 (sampleRecord (2 ^ 64 - 1))).ref_count ≠
      (sampleRecord (2 ^ 64 - 1)).ref_count + 1 ∧
    (DecrementRefCount (IncrementRefCount 64 (sampleRecord (2 ^ 64 - 1)))).assert_failed =
      true ∧
    (DecrementRefCount (IncrementRefCount 64 (sampleRecord (2 ^ 64 - 1)))).record.ref_count ≠
      (sampleRecord (2 ^ 64 - 1)).ref_count := by
  decide

/-- C21, amended: for every record with `ref_count = n`, `n ≥ 1` and `n` below
the largest value of the counter, `IncrementRefCount` followed by
`DecrementRefCount` restores the record (so `ref_count` is `n` again), passes
the assertion and does not destroy the record, and `IncrementRefCount` raises
the count by exactly one; for every record, neither operation changes
`inserted_tuples` or `deleted_tuples`. -/
theorem increment_then_decrement (bits : Nat) (t : Transaction) :
    (1 ≤ t.ref_count → t.ref_count + 1 < 2 ^ bits →
      (IncrementRefCount bits t).ref_count = t.ref_count + 1 ∧
      (DecrementRefCount (IncrementRefCount bits t)).record = t ∧
      (DecrementRefCount (IncrementRefCount bits t)).record.ref_count = t.ref_count ∧
      (DecrementRefCount (IncrementRefCount bits t)).deleted = false ∧
      (DecrementRefCount (IncrementRefCount bits t)).assert_failed = false) ∧
    ((IncrementRefCount bits t).inserted_tuples = t.inserted_tuples ∧
      (IncrementRefCount bits t).deleted_tuples = t.deleted_tuples) ∧
    ((DecrementRefCount t).record.inserted_tuples = t.inserted_tuples ∧
      (DecrementRefCount t).record.deleted_tuples = t.deleted_tuples) := by
  refine ⟨?_, ⟨rfl, rfl⟩, ?_⟩
  · intro h1 hlt
    have hinc : (IncrementRefCount bits t).ref_count = t.ref_count + 1 := by
      show (t.ref_count + 1) % 2 ^ bits = t.ref_count + 1
      exact Nat.mod_eq_of_lt hlt
    have hpos : 0 < (IncrementRefCount bits t).ref_count := by omega
    obtain ⟨hassert, hrec, hdel⟩ :=
      DecrementRefCount_destroys_iff_one (IncrementRefCount bits t) hpos
    have hrec2 : (DecrementRefCount (IncrementRefCount bits t)).record = t := by
      rw [hrec, hinc]
      simp [IncrementRefCount]
    refine ⟨hinc, hrec2, by rw [hrec2], ?_, hassert⟩
    cases hd : (DecrementRefCount (IncrementRefCount bits t)).deleted with
    | false => rfl
    | true =>
      have := hdel.1 hd
      omega
  · unfold DecrementRefCount
    by_cases hpos : t.ref_count > 0
    · by_cases hone : t.ref_count = 1
      · simp [hpos, hone]
      · simp [hpos, hone]
    · simp [hpos]

/-- Witness for C21, amended: a 64-bit counter at 2 (owner and list) goes to 3
and back to 2, and the record is not destroyed. -/
theorem increment_then_decrement_witness :
    (1 ≤ (sampleRecord 2).ref_count ∧ (sampleRecord 2).ref_count + 1 < 2 ^ 64) ∧
    (IncrementRefCount 64 (sampleRecord 2)).ref_count = 3 ∧
    (DecrementRefCount (IncrementRefCount 64 (sampleRecord 2))).record = sampleRecord 2 ∧
    (DecrementRefCount (IncrementRefCount 64 (sampleRecord 2))).deleted = false :=
  ⟨⟨by decide, by decide⟩,
   ((increment_then_decrement 64 (sampleRecord 2)).1 (by decide) (by decide)).1,
   ((increment_then_decrement 64 (sampleRecord 2)).1 (by decide) (by decide)).2.1,
   ((increment_then_decrement 64 (sampleRecord 2)).1 (by decide) (by decide)).2.2.2.1⟩

/-! ## The view is keyed by resolved handle -/

theorem resolvedPairs_stable (manager : catalog.Manager) (b : oid_t) (S : List ItemPointer) :
    resolvedPairs (manager.locatorIndex b).2 S = resolvedPairs manager S := by
  unfold resolvedPairs
  simp only [locatorIndex_stable]

/-- A run of `RecordInsert` calls acts on `inserted_tuples` through the
(handle, offset) pairs of the item pointers only. -/
theorem recordInserts_eq_recordPairs (S : List ItemPointer) (manager : catalog.Manager)
    (t : Transaction) :
    (recordInserts manager t S).2.inserted_tuples =
      recordPairs t.inserted_tuples (resolvedPairs manager S) := by
  induction S generalizing manager t with
  | nil => rfl
  | cons p ps ih =>
    rw [recordInserts, ih, RecordInsert_manager, resolvedPairs_stable]
    rfl

theorem recordPairs_same_handle (H : storage.TileGroupPtr) (o1 o2 : oid_t) :
    recordPairs [] [(H, o1), (H, o2)] = [(H, [o1, o2])] := by
  simp [recordPairs, TupleMap.index, TupleMap.find, TupleMap.orderedInsert,
    TupleMap.pushBackAt]

/-- C22: the maps are keyed by resolved handle, not by block.  There is a
locator that maps two distinct blocks to one handle; for every locator that
maps `b1` and `b2` to the same handle `H`, `RecordInsert((b1, o1))` followed by
`RecordInsert((b2, o2))` on a record with empty maps yields the single key `H`
with sequence `[o1, o2]`, the same view as recording `(b1, o1)` then
`(b1, o2)`; and for every locator, two records with equal `inserted_tuples`
fed item-pointer sequences that agree on their (resolved handle, offset) pairs
have equal views. -/
theorem view_keyed_by_handle (manager : catalog.Manager) (t1 t2 : Transaction)
    (S1 S2 : List ItemPointer) (b1 b2 o1 o2 : oid_t) (H : storage.TileGroupPtr) :
    ((7 : oid_t) ≠ 8 ∧ sharedManager.registered 7 = true ∧ sharedManager.registered 8 = true ∧
      (sharedManager.locatorIndex 7).1 = (sharedManager.locatorIndex 8).1) ∧
    ((manager.locatorIndex b1).1 = H → (manager.locatorIndex b2).1 = H →
      t1.inserted_tuples = [] ∧ t1.deleted_tuples = [] →
      GetInsertedTuples (recordInserts manager t1 [⟨b1, o1⟩, ⟨b2, o2⟩]).2 = [(H, [o1, o2])] ∧
      GetInsertedTuples (recordInserts manager t1 [⟨b1, o1⟩, ⟨b2, o2⟩]).2 =
        GetInsertedTuples (recordInserts manager t1 [⟨b1, o1⟩, ⟨b1, o2⟩]).2) ∧
    (t1.inserted_tuples = t2.inserted_tuples →
      resolvedPairs manager S1 = resolvedPairs manager S2 →
      GetInsertedTuples (recordInserts manager t1 S1).2 =
        GetInsertedTuples (recordInserts manager t2 S2).2) := by
  refine ⟨by decide, ?_, ?_⟩
  · intro h1 h2 hfresh
    have hA : GetInsertedTuples (recordInserts manager t1 [⟨b1, o1⟩, ⟨b2, o2⟩]).2 =
        [(H, [o1, o2])] := by
      unfold GetInsertedTuples
      rw [recordInserts_eq_recordPairs, hfresh.1]
      simp only [resolvedPairs, List.map_cons, List.map_nil, h1, h2]
      exact recordPairs_same_handle H o1 o2
    have hB : GetInsertedTuples (recordInserts manager t1 [⟨b1, o1⟩, ⟨b1, o2⟩]).2 =
        [(H, [o1, o2])] := by
      unfold GetInsertedTuples
      rw [recordInserts_eq_recordPairs, hfresh.1]
      simp only [resolvedPairs, List.map_cons, List.map_nil, h1]
      exact recordPairs_same_handle H o1 o2
    exact ⟨hA, hA.trans hB.symm⟩
  · intro ht hS
    unfold GetInsertedTuples
    rw [recordInserts_eq_recordPairs, recordInserts_eq_recordPairs, ht, hS]

/-- Witness for C22: blocks 7 and 8 both resolve to the tile group at 100, and
recording (7, 3) then (8, 9) gives the view of recording (7, 3) then (7, 9). -/
theorem view_keyed_by_handle_witness :
    ((sharedManager.locatorIndex 7).1 = 100 ∧ (sharedManager.locatorIndex 8).1 = 100 ∧
      (sampleRecord 2).inserted_tuples = [] ∧ (sampleRecord 2).deleted_tuples = []) ∧
    GetInsertedTuples (recordInserts sharedManager (sampleRecord 2) [⟨7, 3⟩, ⟨8, 9⟩]).2 =
      [(100, [3, 9])] ∧
    (resolvedPairs sharedManager [⟨7, 3⟩, ⟨8, 9⟩] = resolvedPairs sharedManager [⟨7, 3⟩, ⟨7, 9⟩] ∧
      GetInsertedTuples (recordInserts sharedManager (sampleRecord 2) [⟨7, 3⟩, ⟨8, 9⟩]).2 =
        GetInsertedTuples (recordInserts sharedManager (sampleRecord 1) [⟨7, 3⟩, ⟨7, 9⟩]).2) :=
  ⟨⟨by decide, by decide, rfl, rfl⟩,
   ((view_keyed_by_handle sharedManager (sampleRecord 2) (sampleRecord 2) [] [] 7 8 3 9
      100).2.1 (by decide) (by decide) ⟨rfl, rfl⟩).1,
   by decide,
   (view_keyed_by_handle sharedManager (sampleRecord 2) (sampleRecord 1)
      [⟨7, 3⟩, ⟨8, 9⟩] [⟨7, 3⟩, ⟨7, 9⟩] 7 8 3 9 100).2.2 rfl (by decide)⟩

end concurrency

/-! ## Constants and types of `types.h` -/

/-- C13: the reserved constants have the stated values: `INVALID_OID = 0xFFFF`,
`MAX_OID = 0xFFFE`, `START_OID = 0`, `INVALID_TXN_ID = 0`, `START_TXN_ID = 1`,
`INVALID_CID = 0`, `START_CID = 1`, `DEFAULT_DB_ID = 12345`,
`DEFAULT_TUPLES_PER_TILEGROUP = 1000`, and the comparison outcomes are
`-1`, `0` and `1`. -/
theorem reserved_constants_values :
    INVALID_OID = 0xFFFF ∧ MAX_OID = 0xFFFE ∧ START_OID = 0 ∧
    INVALID_TXN_ID = 0 ∧ START_TXN_ID = 1 ∧ INVALID_CID = 0 ∧ START_CID = 1 ∧
    DEFAULT_DB_ID = 12345 ∧ DEFAULT_TUPLES_PER_TILEGROUP = 1000 ∧
    VALUE_COMPARE_LESSTHAN = -1 ∧ VALUE_COMPARE_EQUAL = 0 ∧
    VALUE_COMPARE_GREATERTHAN = 1 := by
  refine ⟨?_, ?_, rfl, rfl, rfl, rfl, rfl, rfl, rfl, rfl, rfl, rfl⟩
  · norm_num [INVALID_OID, numeric_limits_max]
  · norm_num [MAX_OID, numeric_limits_max]

/-- C14: the invalid sentinels lie outside the usable ranges.  No oid in
`[START_OID, MAX_OID]` equals `INVALID_OID`, which is `MAX_OID + 1`, the
largest 16-bit value; no txn id in `[START_TXN_ID, MAX_TXN_ID]` equals
`INVALID_TXN_ID`; no commit id in `[START_CID, MAX_CID]` equals `INVALID_CID`;
every 16-bit value other than `INVALID_OID` is in `[START_OID, MAX_OID]`. -/
theorem sentinels_outside_ranges :
    (∀ v : oid_t, START_OID ≤ v → v ≤ MAX_OID → v ≠ INVALID_OID) ∧
    INVALID_OID = MAX_OID + 1 ∧ INVALID_OID = 2 ^ 16 - 1 ∧
    (∀ v : txn_id_t, START_TXN_ID ≤ v → v ≤ MAX_TXN_ID → v ≠ INVALID_TXN_ID) ∧
    (∀ v : cid_t, START_CID ≤ v → v ≤ MAX_CID → v ≠ INVALID_CID) ∧
    (∀ v : oid_t, v < 2 ^ 16 → v ≠ INVALID_OID → START_OID ≤ v ∧ v ≤ MAX_OID) := by
  have hinv : INVALID_OID = 65535 := by norm_num [INVALID_OID, numeric_limits_max]
  have hmax : MAX_OID = 65534 := by norm_num [MAX_OID, numeric_limits_max]
  refine ⟨?_, ?_, ?_, ?_, ?_, ?_⟩
  · intro v _ hv
    rw [hmax] at hv
    rw [hinv]
    exact Nat.ne_of_lt (Nat.lt_of_le_of_lt hv (by norm_num))
  · rw [hinv, hmax]
  · rw [hinv]
    norm_num
  · intro v hv _
    exact Nat.ne_of_gt hv
  · intro v hv _
    exact Nat.ne_of_gt hv
  · intro v hv hne
    rw [hinv] at hne
    rw [hmax]
    have h1 : v < 65536 := by simpa using hv
    exact ⟨Nat.zero_le v, Nat.le_of_lt_succ (Nat.lt_of_le_of_ne (Nat.le_of_lt_succ h1) hne)⟩

/-- Witness for C14: the oid 7 is usable and is not the sentinel; the 16-bit
value 65534 is in the usable range. -/
theorem sentinels_outside_ranges_witness :
    (START_OID ≤ 7 ∧ 7 ≤ MAX_OID ∧ (7 : oid_t) ≠ INVALID_OID) ∧
    ((65534 : oid_t) < 2 ^ 16 ∧ (65534 : oid_t) ≠ INVALID_OID ∧
      START_OID ≤ 65534 ∧ 65534 ≤ MAX_OID) :=
  ⟨⟨by decide, by decide, sentinels_outside_ranges.1 7 (by decide) (by decide)⟩,
   ⟨by decide, by decide,
    sentinels_outside_ranges.2.2.2.2.2 65534 (by decide) (by decide)⟩⟩

/-- C15: the default-constructed `ItemPointer` is the sentinel
`(INVALID_OID, INVALID_OID) = (0xFFFF, 0xFFFF)`; the two-argument constructor
stores `block = b` and `offset = o` unchanged, so its result equals the
sentinel if and only if `b = o = INVALID_OID`. -/
theorem ItemPointer_constructors (b o : oid_t) :
    ItemPointer.construct = { block := INVALID_OID, offset := INVALID_OID } ∧
    ItemPointer.construct = { block := 0xFFFF, offset := 0xFFFF } ∧
    (ItemPointer.construct2 b o).block = b ∧
    (ItemPointer.construct2 b o).offset = o ∧
    (ItemPointer.construct2 b o = ItemPointer.construct ↔
      b = INVALID_OID ∧ o = INVALID_OID) := by
  have hinv : INVALID_OID = 65535 := by norm_num [INVALID_OID, numeric_limits_max]
  refine ⟨rfl, ?_, rfl, rfl, ?_⟩
  · simp [ItemPointer.construct, hinv]
  · simp [ItemPointer.construct, ItemPointer.construct2]

/-- C16, counterexample: `RESULT_INVALID` is an enumerator of `enum Result`
and is none of the five outcomes Success, Failure, Aborted, NoOp, Unknown. -/
theorem Result_five_outcomes_counterexample :
    ¬ (∀ r : Result, r ∈ Result.fiveOutcomes) := by
  intro h
  exact absurd (h Result.RESULT_INVALID) (by decide)

/-- C16, amended: `enum Result` consists of exactly six enumerators, Invalid
(code 0), Success (1), Failure (2), Aborted (3), NoOp (4) and Unknown (5),
with pairwise distinct codes; the five outcomes are the enumerators other
than Invalid. -/
theorem Result_six_enumerators (r : Result) :
    r ∈ Result.enumerators ∧
    Result.enumerators.length = 6 ∧
    Result.enumerators.map Result.code = [0, 1, 2, 3, 4, 5] ∧
    (Result.enumerators.map Result.code).Nodup ∧
    (Result.fiveOutcomes.map Result.code).Nodup ∧
    (r ∈ Result.fiveOutcomes ↔ r ≠ Result.RESULT_INVALID) := by
  refine ⟨?_, rfl, rfl, by decide, by decide, ?_⟩
  · cases r <;> decide
  · cases r <;> decide

end peloton
